import Mathlib

/-!
Verification of the segment recalculation engine of a run-training planner.

The engine takes an ordered list of route segments (distance / elevation /
target intensity inputs) plus a global start time string and recomputes, for
every segment, its effort score (`ep`), its duration, its clock-time placement
and the running cumulative totals.  JavaScript numbers are modelled as exact
rationals (`ℚ`); clock times are the `"HH:MM"` strings the source manipulates.
JavaScript `NaN` cases (non-numeric strings fed to `Number`) have no rational
counterpart and are modelled as `0`; every claim below is stated on well-formed
inputs, away from those cases.
-/

attribute [local semireducible] Rat.add Rat.mul Rat.inv Rat.sub

namespace RunnerCalc

/-- `Math.round`: round half toward positive infinity. -/
def jsRound (q : ℚ) : ℤ := ⌊q + 1/2⌋

/-- JavaScript `split(':')` on the character list of a string: cut at every
colon, keeping empty pieces, so that `"a:b"` gives `["a", "b"]` and `""`
gives `[""]`. -/
def splitOnColon : List Char → List (List Char)
  | [] => [[]]
  | c :: rest =>
    match splitOnColon rest with
    | [] => [[]]
    | p :: ps => if c = ':' then [] :: p :: ps else (c :: p) :: ps

/-- `padStart(2, '0')` on a string. -/
def padStart2 (s : String) : String :=
  if 2 ≤ s.length then s else String.mk (List.replicate (2 - s.length) '0' ++ s.data)

/-- One decimal digit of a `Number` literal. -/
def digit? (c : Char) : Option ℕ :=
  if c.isDigit then some (c.toNat - 48) else none

/-- JavaScript `Number(s)` on the strings that occur in time fields: a string
of decimal digits parses to its value, the empty string parses to `0`, and
anything else is `NaN` (modelled as `none`). -/
def strToNat? (s : String) : Option ℕ :=
  s.data.foldl
    (fun acc c =>
      match acc, digit? c with
      | some a, some d => some (10 * a + d)
      | _, _ => none)
    (some 0)

/-- `parseTime`: split on `":"`, convert the first two fields with `Number`,
return `hours * 60 + minutes`.  Malformed strings give `NaN` in the source;
they are modelled as `0` and lie outside the domain of every claim. -/
def parseTime (timeStr : String) : ℚ :=
  match splitOnColon timeStr.data with
  | h :: m :: _ =>
    match strToNat? (String.mk h), strToNat? (String.mk m) with
    | some hv, some mv => ((60 * hv + mv : ℕ) : ℚ)
    | _, _ => 0
  | _ => 0

/-- `formatTime`: round the minute total, wrap the hour count at 24, pad both
fields to two characters.  `Int.fdiv` is `Math.floor` of the quotient and
`Int.tmod` is the JavaScript `%` (remainder with the dividend's sign). -/
def formatTime (totalMinutes : ℚ) : String :=
  let mins0 : ℤ := jsRound totalMinutes
  let hours : ℤ := Int.tmod (Int.fdiv mins0 60) 24
  let mins : ℤ := Int.tmod mins0 60
  padStart2 (toString hours) ++ ":" ++ padStart2 (toString mins)

/-- `addMinutes`: parse, add, reformat. -/
def addMinutes (timeStr : String) (minutesToAdd : ℚ) : String :=
  formatTime (parseTime timeStr + minutesToAdd)

/-- `calculateEP`: effort points, one per km plus one per 100 m of climb. -/
def calculateEP (distanceKm : ℚ) (elevM : ℚ) : ℚ :=
  distanceKm + elevM / 100

/-- The segment record.  Numeric fields are rationals, clock times are the
`"HH:MM"` strings of the source, and `customDurationMins` is the optional
field whose presence selects Fixed-Duration mode. -/
structure Segment where
  id : String
  name : String
  description : String
  splitDistKm : ℚ
  splitElevM : ℚ
  targetEPH : ℚ
  customDurationMins : Option ℚ
  ep : ℚ
  targetTimeHours : ℚ
  targetTimeMins : ℚ
  startTime : String
  endTime : String
  totalDistKm : ℚ
  accuElevM : ℚ
  accuTimeHours : ℚ
  accuEPH : ℚ
  deriving DecidableEq

/-- The saved session record. -/
structure TrainingSession where
  id : String
  name : String
  date : String
  globalStartTime : String
  segments : List Segment
  totalDistance : ℚ
  totalElevation : ℚ
  totalEP : ℚ
  totalDurationHours : ℚ
  deriving DecidableEq

def DEFAULT_START_TIME : String := "07:00"

/-- `createEmptySegment`.  The source draws `id` from `Math.random`; the fresh
identifier is passed in explicitly here and has no semantic effect. -/
def createEmptySegment (newId : String) (name : String) (description : String) : Segment :=
  { id := newId
    name := name
    description := description
    splitDistKm := 0
    splitElevM := 0
    targetEPH := 10
    customDurationMins := none
    ep := 0
    targetTimeHours := 0
    targetTimeMins := 0
    startTime := DEFAULT_START_TIME
    endTime := DEFAULT_START_TIME
    totalDistKm := 0
    accuElevM := 0
    accuTimeHours := 0
    accuEPH := 0 }

/-- The four running accumulators of `recalculateSegments`. -/
structure RecState where
  runningDist : ℚ
  runningElev : ℚ
  runningTimeHours : ℚ
  currentClockTime : String
  deriving DecidableEq

/-- Fixed-Intensity branch: time floats, `Time = EP / EPH`, with the
`safeEPH` guard substituting 1 for a non-positive intensity. -/
def intensityTimes (seg : Segment) : ℚ × ℚ :=
  let ep := calculateEP seg.splitDistKm seg.splitElevM
  let safeEPH := if seg.targetEPH > 0 then seg.targetEPH else 1
  let targetTimeHours := ep / safeEPH
  (targetTimeHours, targetTimeHours * 60)

/-- Duration resolution of one segment: `(targetTimeHours, targetTimeMins)`.
Index 0 is forced to zero; a present positive `customDurationMins` fixes the
duration; otherwise the Fixed-Intensity branch applies. -/
def segTimes (index : ℕ) (seg : Segment) : ℚ × ℚ :=
  if index = 0 then (0, 0)
  else
    match seg.customDurationMins with
    | some d => if d > 0 then (d / 60, d) else intensityTimes seg
    | none => intensityTimes seg

/-- The body of the `map` inside `recalculateSegments`: one segment is
recomputed and the accumulators are advanced.  In every branch of the source,
`effectiveEPH` ends up equal to `seg.targetEPH`, so the stored intensity is
written back unchanged. -/
def recalcStep (globalStart : String) (index : ℕ) (st : RecState) (seg : Segment) :
    Segment × RecState :=
  let ep := calculateEP seg.splitDistKm seg.splitElevM
  let tt := segTimes index seg
  let runningDist := st.runningDist + seg.splitDistKm
  let runningElev := st.runningElev + seg.splitElevM
  let runningTimeHours := st.runningTimeHours + tt.1
  let segStartTime := if index = 0 then globalStart else st.currentClockTime
  let segEndTime := addMinutes segStartTime tt.2
  let accuEPH :=
    if runningTimeHours > 0 then (runningDist + runningElev / 100) / runningTimeHours else 0
  ({ seg with
      ep := ep
      targetEPH := seg.targetEPH
      targetTimeHours := tt.1
      targetTimeMins := tt.2
      startTime := segStartTime
      endTime := segEndTime
      totalDistKm := runningDist
      accuElevM := runningElev
      accuTimeHours := runningTimeHours
      accuEPH := if index = 0 then 0 else accuEPH },
   { runningDist := runningDist
     runningElev := runningElev
     runningTimeHours := runningTimeHours
     currentClockTime := segEndTime })

/-- The indexed traversal underlying `recalculateSegments`. -/
def recalcAux (globalStart : String) (st : RecState) (index : ℕ) :
    List Segment → List Segment
  | [] => []
  | seg :: rest =>
    let p := recalcStep globalStart index st seg
    p.1 :: recalcAux globalStart p.2 (index + 1) rest

/-- The accumulator state after traversing a list of segments. -/
def recalcState (globalStart : String) (st : RecState) (index : ℕ) :
    List Segment → RecState
  | [] => st
  | seg :: rest =>
    recalcState globalStart (recalcStep globalStart index st seg).2 (index + 1) rest

def initRecState (globalStart : String) : RecState :=
  { runningDist := 0, runningElev := 0, runningTimeHours := 0, currentClockTime := globalStart }

/-- `recalculateSegments`: the single forward pass over the sequence. -/
def recalculateSegments (currentSegments : List Segment) (globalStart : String) :
    List Segment :=
  recalcAux globalStart (initRecState globalStart) 0 currentSegments

/-- `handleEndTimeChange`.  The component state is the pair
`(segments, startTime)`.  Index 0 routes the edit to the global start time
(the reactive recalculation it triggers is a separate effect in the source);
any other index derives the implied duration with overnight wraparound, stores
it as `customDurationMins`, and recalculates.  An out-of-range index would
throw in the source and is modelled as a no-op. -/
def handleEndTimeChange (segments : List Segment) (startTime : String) (index : ℕ)
    (newEndTime : String) : List Segment × String :=
  if index = 0 then (segments, newEndTime)
  else
    match segments.get? index with
    | none => (segments, startTime)
    | some segment =>
      let startMins := parseTime segment.startTime
      let endMins0 := parseTime newEndTime
      let endMins := if endMins0 < startMins then endMins0 + 1440 else endMins0
      let d0 := endMins - startMins
      let durationMins := if d0 ≤ 0 then 1 else d0
      let updated := segments.set index { segment with customDurationMins := some durationMins }
      (recalculateSegments updated startTime, startTime)

/-- `String.fromCharCode` on the successor of `charCodeAt(0)`: `none` models a
`NaN` char code (empty name), which JavaScript turns into the NUL character;
values are reduced modulo 2^16 as `ToUint16` does. -/
def jsFromCharCode (code : Option ℕ) : String :=
  match code with
  | none => String.singleton (Char.ofNat 0)
  | some n => String.singleton (Char.ofNat (n % 65536))

/-- `addRow`: append a fresh empty segment named with the incremented first
character of the last row's name, then recalculate.  The `length > 1`
placeholder test of the source is kept verbatim (it compares the length of a
`fromCharCode` result).  An empty list would throw in the source and is
modelled as a no-op. -/
def addRow (newId : String) (segments : List Segment) (startTime : String) : List Segment :=
  match segments.getLast? with
  | none => segments
  | some lastSeg =>
    let lastChar := lastSeg.name
    let nextChar := jsFromCharCode ((lastChar.data.head?.map Char.toNat).map (· + 1))
    let nm := if nextChar.length > 1 then "X" else nextChar
    let newSeg := createEmptySegment newId nm (lastChar ++ " To " ++ nm)
    recalculateSegments (segments ++ [newSeg]) startTime

/-- `handleSave`: snapshot the summary totals from the last segment and sum
`ep` over all rows.  `id` and `date` come from the environment in the source
and are passed in here.  An empty list would throw in the source. -/
def handleSave (newId : String) (name : String) (date : String) (startTime : String)
    (segments : List Segment) : Option TrainingSession :=
  match segments.getLast? with
  | none => none
  | some lastSeg =>
    some
      { id := newId
        name := name
        date := date
        globalStartTime := startTime
        segments := segments
        totalDistance := lastSeg.totalDistKm
        totalElevation := lastSeg.accuElevM
        totalEP := segments.foldl (fun acc s => acc + s.ep) 0
        totalDurationHours := lastSeg.accuTimeHours }

/-! ### Concrete fixtures used by witnesses and counterexamples -/

/-- A baseline record with all-zero numbers; concrete rows below override it. -/
def segBase : Segment :=
  { id := "s"
    name := "S"
    description := "d"
    splitDistKm := 0
    splitElevM := 0
    targetEPH := 0
    customDurationMins := none
    ep := 0
    targetTimeHours := 0
    targetTimeMins := 0
    startTime := "07:00"
    endTime := "07:00"
    totalDistKm := 0
    accuElevM := 0
    accuTimeHours := 0
    accuEPH := 0 }

/-- A fully consistent Start row for global start `"07:00"`. -/
def segStart : Segment :=
  { segBase with
    id := "s0"
    name := "Start"
    description := "Start Point" }

/-- A fully consistent Fixed-Intensity leg: 10 km at 10 EPH starting 07:00. -/
def segLegA : Segment :=
  { segBase with
    id := "s1"
    name := "A"
    description := "Start To A"
    splitDistKm := 10
    targetEPH := 10
    ep := 10
    targetTimeHours := 1
    targetTimeMins := 60
    startTime := "07:00"
    endTime := "08:00"
    totalDistKm := 10
    accuElevM := 0
    accuTimeHours := 1
    accuEPH := 10 }

/-- A raw Fixed-Duration leg: 10 km, stored intensity 10, duration fixed at 90. -/
def segLegFixed : Segment :=
  { segBase with
    id := "s2"
    name := "A"
    description := "Start To A"
    splitDistKm := 10
    targetEPH := 10
    customDurationMins := some 90 }

/-- The recalculated form of `segLegFixed` behind `segStart`. -/
def segLegFixedOut : Segment :=
  ((recalculateSegments [segStart, segLegFixed] "07:00").get? 1).getD segBase

/-- A row named `"Z"`, the last single-letter label. -/
def segRowZ : Segment :=
  { segLegA with id := "s3", name := "Z" }

/-- A Start row carrying nonzero raw inputs (2 km, 100 m of climb). -/
def segStartLoaded : Segment :=
  { segBase with
    id := "s4"
    name := "Start"
    description := "Start Point"
    splitDistKm := 2
    splitElevM := 100 }

/-- The recalculated form of the loaded plan's second row. -/
def segLoadedOut1 : Segment :=
  ((recalculateSegments [segStartLoaded, segLegA] "07:00").get? 1).getD segBase

/-- An all-empty session record, used only as a `getD` default. -/
def sessBase : TrainingSession :=
  { id := ""
    name := ""
    date := ""
    globalStartTime := ""
    segments := []
    totalDistance := 0
    totalElevation := 0
    totalEP := 0
    totalDurationHours := 0 }

/-- The session saved from the loaded two-row plan. -/
def sessLoaded : TrainingSession :=
  (handleSave "sid" "nm" "dt" "07:00"
    (recalculateSegments [segStartLoaded, segLegA] "07:00")).getD sessBase

/-- The row produced by editing the end time of the concrete leg to its own
start time: the implied duration collapses to the 1-minute clamp. -/
def segEndEditOut : Segment :=
  (((handleEndTimeChange [segStart, segLegA] "07:00" 1 "07:00").1).get? 1).getD segBase

/-! ### Infrastructure lemmas -/

theorem recalcStep_ep (g : String) (idx : ℕ) (st : RecState) (s : Segment) :
    ((recalcStep g idx st s).1).ep = calculateEP s.splitDistKm s.splitElevM := rfl

theorem recalcStep_targetEPH (g : String) (idx : ℕ) (st : RecState) (s : Segment) :
    ((recalcStep g idx st s).1).targetEPH = s.targetEPH := rfl

theorem recalcStep_custom (g : String) (idx : ℕ) (st : RecState) (s : Segment) :
    ((recalcStep g idx st s).1).customDurationMins = s.customDurationMins := rfl

theorem recalcStep_splitDistKm (g : String) (idx : ℕ) (st : RecState) (s : Segment) :
    ((recalcStep g idx st s).1).splitDistKm = s.splitDistKm := rfl

theorem recalcStep_splitElevM (g : String) (idx : ℕ) (st : RecState) (s : Segment) :
    ((recalcStep g idx st s).1).splitElevM = s.splitElevM := rfl

theorem recalcStep_name (g : String) (idx : ℕ) (st : RecState) (s : Segment) :
    ((recalcStep g idx st s).1).name = s.name := rfl

theorem recalcStep_targetTimeHours (g : String) (idx : ℕ) (st : RecState) (s : Segment) :
    ((recalcStep g idx st s).1).targetTimeHours = (segTimes idx s).1 := rfl

theorem recalcStep_targetTimeMins (g : String) (idx : ℕ) (st : RecState) (s : Segment) :
    ((recalcStep g idx st s).1).targetTimeMins = (segTimes idx s).2 := rfl

theorem recalcStep_startTime (g : String) (idx : ℕ) (st : RecState) (s : Segment) :
    ((recalcStep g idx st s).1).startTime =
      if idx = 0 then g else st.currentClockTime := rfl

theorem recalcStep_endTime (g : String) (idx : ℕ) (st : RecState) (s : Segment) :
    ((recalcStep g idx st s).1).endTime =
      addMinutes (if idx = 0 then g else st.currentClockTime) (segTimes idx s).2 := rfl

theorem recalcStep_totalDistKm (g : String) (idx : ℕ) (st : RecState) (s : Segment) :
    ((recalcStep g idx st s).1).totalDistKm = st.runningDist + s.splitDistKm := rfl

theorem recalcStep_accuElevM (g : String) (idx : ℕ) (st : RecState) (s : Segment) :
    ((recalcStep g idx st s).1).accuElevM = st.runningElev + s.splitElevM := rfl

theorem recalcStep_accuTimeHours (g : String) (idx : ℕ) (st : RecState) (s : Segment) :
    ((recalcStep g idx st s).1).accuTimeHours =
      st.runningTimeHours + (segTimes idx s).1 := rfl

theorem recalcStep_accuEPH (g : String) (idx : ℕ) (st : RecState) (s : Segment) :
    ((recalcStep g idx st s).1).accuEPH =
      if idx = 0 then 0
      else if st.runningTimeHours + (segTimes idx s).1 > 0 then
        ((st.runningDist + s.splitDistKm) + (st.runningElev + s.splitElevM) / 100) /
          (st.runningTimeHours + (segTimes idx s).1)
      else 0 := rfl

theorem recalcStep_snd_clock (g : String) (idx : ℕ) (st : RecState) (s : Segment) :
    ((recalcStep g idx st s).2).currentClockTime = ((recalcStep g idx st s).1).endTime := rfl

theorem recalcStep_snd_dist (g : String) (idx : ℕ) (st : RecState) (s : Segment) :
    ((recalcStep g idx st s).2).runningDist = st.runningDist + s.splitDistKm := rfl

theorem recalcStep_snd_elev (g : String) (idx : ℕ) (st : RecState) (s : Segment) :
    ((recalcStep g idx st s).2).runningElev = st.runningElev + s.splitElevM := rfl

theorem recalcStep_snd_time (g : String) (idx : ℕ) (st : RecState) (s : Segment) :
    ((recalcStep g idx st s).2).runningTimeHours =
      st.runningTimeHours + (segTimes idx s).1 := rfl

theorem recalcAux_length (g : String) :
    ∀ (l : List Segment) (st : RecState) (idx : ℕ),
      (recalcAux g st idx l).length = l.length
  | [], _, _ => rfl
  | _ :: rest, st, idx => by
    simp [recalcAux, recalcAux_length g rest _ (idx + 1)]

/-- Master characterization: the `i`-th output of the traversal is the step
function applied to the `i`-th input at the accumulator state reached after
the first `i` inputs. -/
theorem recalcAux_get? (g : String) :
    ∀ (l : List Segment) (st : RecState) (idx i : ℕ),
      (recalcAux g st idx l).get? i =
        (l.get? i).map fun s =>
          (recalcStep g (idx + i) (recalcState g st idx (l.take i)) s).1
  | [], _, _, i => by simp [recalcAux]
  | s :: rest, st, idx, 0 => by simp [recalcAux, recalcState]
  | s :: rest, st, idx, (i + 1) => by
    have harith : idx + 1 + i = idx + (i + 1) := by omega
    simp only [recalcAux, List.get?_cons_succ, List.take_succ_cons, recalcState]
    rw [recalcAux_get? g rest _ (idx + 1) i, harith]

theorem recalculateSegments_get? (l : List Segment) (g : String) (i : ℕ) :
    (recalculateSegments l g).get? i =
      (l.get? i).map fun s =>
        (recalcStep g i (recalcState g (initRecState g) 0 (l.take i)) s).1 := by
  have := recalcAux_get? g l (initRecState g) 0 i
  simpa [recalculateSegments] using this

theorem recalcState_take_succ (g : String) :
    ∀ (l : List Segment) (st : RecState) (idx i : ℕ) (s : Segment),
      l.get? i = some s →
      recalcState g st idx (l.take (i + 1)) =
        (recalcStep g (idx + i) (recalcState g st idx (l.take i)) s).2
  | [], _, _, i, s => by simp
  | a :: rest, st, idx, 0, s => by
    intro h
    obtain rfl : a = s := by simpa using h
    simp [recalcState]
  | a :: rest, st, idx, (i + 1), s => by
    intro h
    simp only [List.get?_cons_succ] at h
    simp only [List.take_succ_cons, recalcState]
    rw [recalcState_take_succ g rest _ (idx + 1) i s h]
    congr 2
    omega

/-- Claim C1 helper: membership in the output pins down an index. -/
theorem mem_recalculateSegments (l : List Segment) (g : String) (s : Segment)
    (h : s ∈ recalculateSegments l g) :
    ∃ i s0, l.get? i = some s0 ∧
      s = (recalcStep g i (recalcState g (initRecState g) 0 (l.take i)) s0).1 := by
  obtain ⟨i, hi⟩ := List.mem_iff_get?.mp h
  rw [recalculateSegments_get? l g i] at hi
  obtain ⟨s0, h0, hs⟩ := Option.map_eq_some'.mp hi
  exact ⟨i, s0, h0, hs.symm⟩

/-- Claim C1: every output segment of `recalculate` satisfies the effort
formula `ep = splitDistKm + splitElevM / 100` exactly, at any index and in
either mode. -/
theorem ep_formula_of_mem_recalculate (l : List Segment) (g : String) (s : Segment)
    (h : s ∈ recalculateSegments l g) :
    s.ep = s.splitDistKm + s.splitElevM / 100 := by
  obtain ⟨i, s0, _, rfl⟩ := mem_recalculateSegments l g s h
  rw [recalcStep_ep, recalcStep_splitDistKm, recalcStep_splitElevM]
  rfl

/-- Witness for C1 at a concrete run. -/
theorem ep_formula_of_mem_recalculate_witness :
    segLegA.ep = segLegA.splitDistKm + segLegA.splitElevM / 100 :=
  ep_formula_of_mem_recalculate [segStart, segLegA] "07:00" segLegA (by decide)

/-- Indexed form of the master lemma: matching input and output entries. -/
theorem recalc_get_eq (l : List Segment) (g : String) (i : ℕ) (s0 s : Segment)
    (h0 : l.get? i = some s0)
    (h : (recalculateSegments l g).get? i = some s) :
    s = (recalcStep g i (recalcState g (initRecState g) 0 (l.take i)) s0).1 := by
  rw [recalculateSegments_get? l g i, h0, Option.map_some'] at h
  exact (Option.some.inj h).symm

/-- Claim C2: at a positive index with no custom duration (Fixed-Intensity
mode), the recalculated duration is `ep / targetEPH` for a positive intensity
and `ep` itself for a zero intensity (divisor substituted by 1), and the
stored intensity is preserved.  In this rational model the division is total,
so no NaN or infinity can arise. -/
theorem fixedIntensity_recalculate (l : List Segment) (g : String) (i : ℕ)
    (s0 s : Segment) (hi : 0 < i) (h0 : l.get? i = some s0)
    (h : (recalculateSegments l g).get? i = some s)
    (hcd : s0.customDurationMins = none) :
    s.targetEPH = s0.targetEPH ∧
    (0 < s0.targetEPH →
      s.targetTimeHours = calculateEP s0.splitDistKm s0.splitElevM / s0.targetEPH) ∧
    (s0.targetEPH = 0 →
      s.targetTimeHours = calculateEP s0.splitDistKm s0.splitElevM) := by
  obtain rfl := recalc_get_eq l g i s0 s h0 h
  have hne : i ≠ 0 := by omega
  rw [recalcStep_targetEPH, recalcStep_targetTimeHours]
  refine ⟨rfl, ?_, ?_⟩
  · intro hpos
    simp [segTimes, hne, hcd, intensityTimes, hpos]
  · intro hz
    simp [segTimes, hne, hcd, intensityTimes, hz]

/-- Witness for C2 at a concrete Fixed-Intensity leg. -/
theorem fixedIntensity_recalculate_witness :
    segLegA.targetEPH = segLegA.targetEPH ∧
    (0 < segLegA.targetEPH →
      segLegA.targetTimeHours = calculateEP segLegA.splitDistKm segLegA.splitElevM /
        segLegA.targetEPH) ∧
    (segLegA.targetEPH = 0 →
      segLegA.targetTimeHours = calculateEP segLegA.splitDistKm segLegA.splitElevM) :=
  fixedIntensity_recalculate [segStart, segLegA] "07:00" 1 segLegA segLegA
    (by decide) (by decide) (by decide) (by decide)

/-- Claim C3: at a positive index with a positive custom duration
(Fixed-Duration mode), the recalculated duration equals the custom duration
exactly (`targetTimeMins = customDurationMins`, `targetTimeHours` its
sixtieth), and the stored intensity is exactly what it was before — it is
never back-derived from the fixed duration. -/
theorem fixedDuration_recalculate (l : List Segment) (g : String) (i : ℕ)
    (s0 s : Segment) (d : ℚ) (hi : 0 < i) (h0 : l.get? i = some s0)
    (h : (recalculateSegments l g).get? i = some s)
    (hcd : s0.customDurationMins = some d) (hd : 0 < d) :
    s.targetTimeMins = d ∧ s.targetTimeHours = d / 60 ∧ s.targetEPH = s0.targetEPH := by
  obtain rfl := recalc_get_eq l g i s0 s h0 h
  have hne : i ≠ 0 := by omega
  rw [recalcStep_targetTimeMins, recalcStep_targetTimeHours, recalcStep_targetEPH]
  refine ⟨?_, ?_, rfl⟩ <;> simp [segTimes, hne, hcd, hd]

/-- Witness for C3 at a concrete Fixed-Duration leg. -/
theorem fixedDuration_recalculate_witness :
    segLegFixedOut.targetTimeMins = 90 ∧ segLegFixedOut.targetTimeHours = 90 / 60 ∧
    segLegFixedOut.targetEPH = segLegFixed.targetEPH :=
  fixedDuration_recalculate [segStart, segLegFixed] "07:00" 1 segLegFixed
    segLegFixedOut 90 (by decide) (by decide) (by decide) (by decide) (by decide)

/-- Claim C4: the index-0 Start row of any recalculated sequence has zero
duration fields and zero cumulative intensity, whatever its stored inputs. -/
theorem startRow_zero_recalculate (l : List Segment) (g : String) (s : Segment)
    (h : (recalculateSegments l g).get? 0 = some s) :
    s.targetTimeHours = 0 ∧ s.targetTimeMins = 0 ∧ s.accuEPH = 0 := by
  rw [recalculateSegments_get? l g 0] at h
  obtain ⟨s0, h0, hs⟩ := Option.map_eq_some'.mp h
  obtain rfl := hs.symm
  rw [recalcStep_targetTimeHours, recalcStep_targetTimeMins, recalcStep_accuEPH]
  simp [segTimes]

/-- Witness for C4: a Start row whose stored intensity and inputs are ignored. -/
theorem startRow_zero_recalculate_witness :
    segStart.targetTimeHours = 0 ∧ segStart.targetTimeMins = 0 ∧ segStart.accuEPH = 0 :=
  startRow_zero_recalculate [segStart, segLegA] "07:00" segStart (by decide)

/-- Claim C5: the output timeline is continuous — the first output row starts
at the global start time, and every later row starts exactly where the
previous one ends (the clock cursor is carried from segment to segment). -/
theorem timeline_continuity_recalculate (l : List Segment) (g : String) :
    (∀ s, (recalculateSegments l g).get? 0 = some s → s.startTime = g) ∧
    (∀ i s s', (recalculateSegments l g).get? i = some s →
      (recalculateSegments l g).get? (i + 1) = some s' → s'.startTime = s.endTime) := by
  constructor
  · intro s h
    rw [recalculateSegments_get? l g 0] at h
    obtain ⟨s0, h0, hs⟩ := Option.map_eq_some'.mp h
    obtain rfl := hs.symm
    rw [recalcStep_startTime]
    simp
  · intro i s s' h h'
    have h0 : ∃ s0, l.get? i = some s0 := by
      rw [recalculateSegments_get? l g i] at h
      obtain ⟨s0, h0, _⟩ := Option.map_eq_some'.mp h
      exact ⟨s0, h0⟩
    obtain ⟨s0, h0⟩ := h0
    have h0' : ∃ s1, l.get? (i + 1) = some s1 := by
      rw [recalculateSegments_get? l g (i + 1)] at h'
      obtain ⟨s1, h1, _⟩ := Option.map_eq_some'.mp h'
      exact ⟨s1, h1⟩
    obtain ⟨s1, h1⟩ := h0'
    obtain rfl := recalc_get_eq l g i s0 s h0 h
    obtain rfl := recalc_get_eq l g (i + 1) s1 s' h1 h'
    rw [recalcStep_startTime]
    have hstate := recalcState_take_succ g l (initRecState g) 0 i s0 h0
    simp only [Nat.zero_add] at hstate
    simp only [Nat.succ_ne_zero, if_false, hstate, recalcStep_snd_clock]

/-- Witness for C5 on a concrete two-row plan. -/
theorem timeline_continuity_recalculate_witness :
    segStart.startTime = "07:00" ∧ segLegA.startTime = segStart.endTime :=
  ⟨(timeline_continuity_recalculate [segStart, segLegA] "07:00").1 segStart (by decide),
   (timeline_continuity_recalculate [segStart, segLegA] "07:00").2 0 segStart segLegA
     (by decide) (by decide)⟩

/-- Claim C6: at every positive index, the cumulative intensity is the
effort-weighted average — accumulated effort points divided by accumulated
hours — when the accumulated time is positive, and `0` when the accumulated
time is zero, so the guard makes the quotient total. -/
theorem accuEPH_recalculate (l : List Segment) (g : String) (i : ℕ) (s : Segment)
    (hi : 0 < i) (h : (recalculateSegments l g).get? i = some s) :
    (0 < s.accuTimeHours →
      s.accuEPH = (s.totalDistKm + s.accuElevM / 100) / s.accuTimeHours) ∧
    (s.accuTimeHours = 0 → s.accuEPH = 0) := by
  have h0 : ∃ s0, l.get? i = some s0 := by
    rw [recalculateSegments_get? l g i] at h
    obtain ⟨s0, h0, _⟩ := Option.map_eq_some'.mp h
    exact ⟨s0, h0⟩
  obtain ⟨s0, h0⟩ := h0
  obtain rfl := recalc_get_eq l g i s0 s h0 h
  have hne : i ≠ 0 := by omega
  rw [recalcStep_accuEPH, recalcStep_accuTimeHours, recalcStep_totalDistKm,
    recalcStep_accuElevM]
  constructor
  · intro hpos
    simp [hne, hpos]
  · intro hz
    simp [hne, hz]

/-- Witness for C6 at a concrete leg with one hour of accumulated time. -/
theorem accuEPH_recalculate_witness :
    (0 < segLegA.accuTimeHours →
      segLegA.accuEPH = (segLegA.totalDistKm + segLegA.accuElevM / 100) /
        segLegA.accuTimeHours) ∧
    (segLegA.accuTimeHours = 0 → segLegA.accuEPH = 0) :=
  accuEPH_recalculate [segStart, segLegA] "07:00" 1 segLegA (by decide) (by decide)

/-- One step of the pass is a fixed point of itself: recomputing an already
recomputed segment at the same state changes nothing, because the step reads
only the raw input fields and those are written back unchanged. -/
theorem recalcStep_idem (g : String) (idx : ℕ) (st : RecState) (s : Segment) :
    recalcStep g idx st ((recalcStep g idx st s).1) = recalcStep g idx st s := rfl

theorem recalcAux_idem (g : String) :
    ∀ (l : List Segment) (st : RecState) (idx : ℕ),
      recalcAux g st idx (recalcAux g st idx l) = recalcAux g st idx l
  | [], _, _ => rfl
  | s :: rest, st, idx => by
    show (recalcStep g idx st ((recalcStep g idx st s).1)).1 ::
        recalcAux g (recalcStep g idx st ((recalcStep g idx st s).1)).2 (idx + 1)
          (recalcAux g (recalcStep g idx st s).2 (idx + 1) rest) =
      (recalcStep g idx st s).1 :: recalcAux g (recalcStep g idx st s).2 (idx + 1) rest
    rw [recalcStep_idem g idx st s,
      recalcAux_idem g rest (recalcStep g idx st s).2 (idx + 1)]

/-- Claim C7: `recalculate` is idempotent — one pass reaches a fixed point,
and a second pass over its own output (same global start) changes no field of
any segment. -/
theorem recalculate_idempotent (l : List Segment) (g : String) :
    recalculateSegments (recalculateSegments l g) g = recalculateSegments l g :=
  recalcAux_idem g l (initRecState g) 0

theorem recalcState_runningDist (g : String) :
    ∀ (l : List Segment) (st : RecState) (idx : ℕ),
      (recalcState g st idx l).runningDist =
        st.runningDist + (l.map Segment.splitDistKm).sum
  | [], _, _ => by simp [recalcState]
  | s :: rest, st, idx => by
    simp only [recalcState, recalcState_runningDist g rest _ (idx + 1),
      recalcStep_snd_dist, List.map_cons, List.sum_cons]
    ring

theorem recalcState_runningElev (g : String) :
    ∀ (l : List Segment) (st : RecState) (idx : ℕ),
      (recalcState g st idx l).runningElev =
        st.runningElev + (l.map Segment.splitElevM).sum
  | [], _, _ => by simp [recalcState]
  | s :: rest, st, idx => by
    simp only [recalcState, recalcState_runningElev g rest _ (idx + 1),
      recalcStep_snd_elev, List.map_cons, List.sum_cons]
    ring

theorem recalcAux_map_ep (g : String) :
    ∀ (l : List Segment) (st : RecState) (idx : ℕ),
      (recalcAux g st idx l).map Segment.ep =
        l.map fun s => calculateEP s.splitDistKm s.splitElevM
  | [], _, _ => rfl
  | s :: rest, st, idx => by
    simp only [recalcAux, List.map_cons, recalcAux_map_ep g rest _ (idx + 1)]
    rfl

theorem foldl_add_ep :
    ∀ (l : List Segment) (a : ℚ),
      l.foldl (fun acc s => acc + s.ep) a = a + (l.map Segment.ep).sum
  | [], a => by simp
  | s :: rest, a => by
    simp only [List.foldl_cons, foldl_add_ep rest, List.map_cons, List.sum_cons]
    ring

/-- Claim C10: the Start row's raw inputs are not neutralized — its `ep` is
still the effort formula, its distance and elevation enter every running
total (in particular its own, and by prefix summation every later row's), and
its `ep` is part of the saved session's `totalEP`; only the duration fields
and `accuEPH` of index 0 are forced to zero. -/
theorem startRow_inputs_counted (s0 : Segment) (rest : List Segment) (g : String) :
    (∃ o0, (recalculateSegments (s0 :: rest) g).get? 0 = some o0 ∧
      o0.ep = calculateEP s0.splitDistKm s0.splitElevM ∧
      o0.totalDistKm = s0.splitDistKm ∧
      o0.accuElevM = s0.splitElevM ∧
      o0.targetTimeHours = 0 ∧ o0.targetTimeMins = 0 ∧ o0.accuEPH = 0) ∧
    (∀ i s, (recalculateSegments (s0 :: rest) g).get? i = some s →
      s.totalDistKm = (((s0 :: rest).take (i + 1)).map Segment.splitDistKm).sum ∧
      s.accuElevM = (((s0 :: rest).take (i + 1)).map Segment.splitElevM).sum) ∧
    (∀ nid nm dt sess,
      handleSave nid nm dt g (recalculateSegments (s0 :: rest) g) = some sess →
      sess.totalEP =
        ((s0 :: rest).map fun t => calculateEP t.splitDistKm t.splitElevM).sum) := by
  refine ⟨?_, ?_, ?_⟩
  · refine ⟨(recalcStep g 0 (initRecState g) s0).1, ?_, ?_, ?_, ?_, ?_, ?_, ?_⟩
    · rw [recalculateSegments_get?]
      rfl
    · exact recalcStep_ep g 0 (initRecState g) s0
    · rw [recalcStep_totalDistKm]
      show (0 : ℚ) + s0.splitDistKm = s0.splitDistKm
      ring
    · rw [recalcStep_accuElevM]
      show (0 : ℚ) + s0.splitElevM = s0.splitElevM
      ring
    · rw [recalcStep_targetTimeHours]
      simp [segTimes]
    · rw [recalcStep_targetTimeMins]
      simp [segTimes]
    · rw [recalcStep_accuEPH]
      simp
  · intro i s h
    have h0 : ∃ t, (s0 :: rest).get? i = some t := by
      rw [recalculateSegments_get?] at h
      obtain ⟨t, h0, _⟩ := Option.map_eq_some'.mp h
      exact ⟨t, h0⟩
    obtain ⟨t, h0⟩ := h0
    obtain rfl := recalc_get_eq (s0 :: rest) g i t s h0 h
    rw [recalcStep_totalDistKm, recalcStep_accuElevM,
      recalcState_runningDist, recalcState_runningElev]
    have htake : (s0 :: rest).take (i + 1) = (s0 :: rest).take i ++ [t] := by
      rw [List.take_succ]
      rw [List.get?_eq_getElem?] at h0
      rw [h0]
      rfl
    rw [htake]
    constructor <;>
      simp only [List.map_append, List.sum_append, List.map_cons, List.map_nil,
        List.sum_cons, List.sum_nil, initRecState] <;>
      ring
  · intro nid nm dt sess h
    rw [handleSave] at h
    cases hlast : (recalculateSegments (s0 :: rest) g).getLast? with
    | none => rw [hlast] at h; exact absurd h (by simp)
    | some lastSeg =>
      rw [hlast] at h
      simp only [Option.some.injEq] at h
      have : sess.totalEP =
          (recalculateSegments (s0 :: rest) g).foldl (fun acc s => acc + s.ep) 0 := by
        rw [← h]
      rw [this, foldl_add_ep, recalculateSegments, recalcAux_map_ep]
      ring

/-- Witness for C10 at a Start row loaded with 2 km / 100 m: its 3 effort
points flow into the totals and into the saved `totalEP`. -/
theorem startRow_inputs_counted_witness :
    (∃ o0, (recalculateSegments [segStartLoaded, segLegA] "07:00").get? 0 = some o0 ∧
      o0.ep = calculateEP segStartLoaded.splitDistKm segStartLoaded.splitElevM ∧
      o0.totalDistKm = segStartLoaded.splitDistKm ∧
      o0.accuElevM = segStartLoaded.splitElevM ∧
      o0.targetTimeHours = 0 ∧ o0.targetTimeMins = 0 ∧ o0.accuEPH = 0) ∧
    (segLoadedOut1.totalDistKm =
      (([segStartLoaded, segLegA].take 2).map Segment.splitDistKm).sum ∧
     segLoadedOut1.accuElevM =
      (([segStartLoaded, segLegA].take 2).map Segment.splitElevM).sum) ∧
    sessLoaded.totalEP =
      ([segStartLoaded, segLegA].map fun t => calculateEP t.splitDistKm t.splitElevM).sum :=
  ⟨(startRow_inputs_counted segStartLoaded [segLegA] "07:00").1,
   (startRow_inputs_counted segStartLoaded [segLegA] "07:00").2.1 1 segLoadedOut1
     (by decide),
   (startRow_inputs_counted segStartLoaded [segLegA] "07:00").2.2 "sid" "nm" "dt"
     sessLoaded (by decide)⟩

theorem recalculateSegments_length (l : List Segment) (g : String) :
    (recalculateSegments l g).length = l.length :=
  recalcAux_length g l (initRecState g) 0

/-- Counterexample to claim C9 as stated: after a row labelled `"Z"` the
appended row is named `"["` — the raw character-code successor — not the
placeholder `"X"` that the wrapping clause promises.  The placeholder branch
compares the length of a one-character string against 1 and can never fire. -/
theorem addRow_past_Z_no_placeholder :
    ((addRow "n9" [segRowZ] "07:00").getLast?).map Segment.name = some "[" ∧
    ("[" : String) ≠ "X" := by
  constructor
  · decide
  · decide

/-- Claim C9 (amended): `addRow` appends a segment with zero distance and
elevation inputs and the default intensity 10, named with the character-code
successor of the first character of the previous (last) row's name; no
wrapping to a placeholder occurs (past `'Z'` the label is simply `'['`). -/
theorem addRow_increments_label (segs : List Segment) (g nid : String)
    (lastSeg : Segment) (c : Char) (cs : List Char)
    (hlast : segs.getLast? = some lastSeg)
    (hname : lastSeg.name.data = c :: cs)
    (hvalid : c.toNat + 1 < 55296) :
    ∃ s, (addRow nid segs g).getLast? = some s ∧
      s.name = String.singleton (Char.ofNat (c.toNat + 1)) ∧
      s.splitDistKm = 0 ∧ s.splitElevM = 0 ∧ s.targetEPH = 10 := by
  have hmod : (c.toNat + 1) % 65536 = c.toNat + 1 := Nat.mod_eq_of_lt (by omega)
  have hchar : jsFromCharCode ((lastSeg.name.data.head?.map Char.toNat).map (· + 1)) =
      String.singleton (Char.ofNat (c.toNat + 1)) := by
    rw [hname]
    simp [jsFromCharCode, hmod]
  have haddRow : addRow nid segs g =
      recalculateSegments (segs ++ [createEmptySegment nid
        (String.singleton (Char.ofNat (c.toNat + 1)))
        (lastSeg.name ++ " To " ++ String.singleton (Char.ofNat (c.toNat + 1)))]) g := by
    rw [addRow, hlast]
    simp only [hchar]
    rfl
  set nm := String.singleton (Char.ofNat (c.toNat + 1)) with hnm
  set newSeg := createEmptySegment nid nm (lastSeg.name ++ " To " ++ nm) with hns
  have hlen : (addRow nid segs g).length = segs.length + 1 := by
    rw [haddRow, recalculateSegments_length, List.length_append]
    rfl
  have hgetnew : (segs ++ [newSeg]).get? segs.length = some newSeg := by
    rw [List.get?_eq_getElem?]
    exact List.getElem?_concat_length segs newSeg
  refine ⟨((recalcStep g segs.length
      (recalcState g (initRecState g) 0 ((segs ++ [newSeg]).take segs.length)) newSeg).1),
    ?_, ?_, ?_, ?_, ?_⟩
  · rw [List.getLast?_eq_getElem?, ← List.get?_eq_getElem?, hlen]
    simp only [Nat.add_sub_cancel]
    rw [haddRow, recalculateSegments_get?, hgetnew, Option.map_some']
  · rw [recalcStep_name]
    rfl
  · rw [recalcStep_splitDistKm]
    rfl
  · rw [recalcStep_splitElevM]
    rfl
  · rw [recalcStep_targetEPH]
    rfl

/-- Witness for the amended C9: appending after `"Z"` yields a zero-input row
at 10 EPH named with character 91, which is `"["`. -/
theorem addRow_increments_label_witness :
    ∃ s, (addRow "n9" [segRowZ] "07:00").getLast? = some s ∧
      s.name = String.singleton (Char.ofNat ('Z'.toNat + 1)) ∧
      s.splitDistKm = 0 ∧ s.splitElevM = 0 ∧ s.targetEPH = 10 :=
  addRow_increments_label [segRowZ] "07:00" "n9" segRowZ 'Z' []
    (by decide) (by decide) (by decide)

/-- `parseTime` always produces a natural number of minutes (malformed
strings produce 0 in this model). -/
theorem parseTime_nat (s : String) : ∃ n : ℕ, parseTime s = (n : ℚ) := by
  rcases hsp : splitOnColon s.data with _ | ⟨a, _ | ⟨b, r⟩⟩
  · exact ⟨0, by simp [parseTime, hsp]⟩
  · exact ⟨0, by simp [parseTime, hsp]⟩
  · rcases h1 : strToNat? (String.mk a) with _ | hv
    · exact ⟨0, by simp [parseTime, hsp, h1]⟩
    · rcases h2 : strToNat? (String.mk b) with _ | mv
      · exact ⟨0, by simp [parseTime, hsp, h1, h2]⟩
      · exact ⟨60 * hv + mv, by simp [parseTime, hsp, h1, h2]⟩

theorem jsRound_natCast (n : ℕ) : jsRound (n : ℚ) = (n : ℤ) := by
  unfold jsRound
  rw [Int.floor_eq_iff]
  constructor
  · push_cast
    linarith
  · push_cast
    linarith

theorem toString_intCast_nat (k : ℕ) : toString ((k : ℕ) : ℤ) = toString k := rfl

/-- On a natural number of minutes, `formatTime` is plain natural division
and remainder arithmetic. -/
theorem formatTime_natCast (n : ℕ) :
    formatTime (n : ℚ) =
      padStart2 (toString (n / 60 % 24)) ++ ":" ++ padStart2 (toString (n % 60)) := by
  simp only [formatTime, jsRound_natCast]
  rw [show ((60 : ℤ)) = ((60 : ℕ) : ℤ) from rfl, ← Int.ofNat_fdiv,
    show ((24 : ℤ)) = ((24 : ℕ) : ℤ) from rfl, ← Int.ofNat_tmod, ← Int.ofNat_tmod,
    toString_intCast_nat, toString_intCast_nat]

/-- Adding a full day of minutes does not change the formatted wall-clock
time (for a non-negative minute count). -/
theorem formatTime_add_1440 (n : ℕ) : formatTime ((n : ℚ) + 1440) = formatTime (n : ℚ) := by
  have hcast : (n : ℚ) + 1440 = ((n + 1440 : ℕ) : ℚ) := by push_cast; ring
  rw [hcast, formatTime_natCast, formatTime_natCast]
  have h1 : (n + 1440) / 60 % 24 = n / 60 % 24 := by omega
  have h2 : (n + 1440) % 60 = n % 60 := by omega
  rw [h1, h2]

theorem take_set_self {α : Type} :
    ∀ (l : List α) (i : ℕ) (a : α), (l.set i a).take i = l.take i
  | [], _, _ => rfl
  | _ :: _, 0, _ => rfl
  | x :: xs, (i + 1), a => by
    show x :: (xs.set i a).take i = x :: xs.take i
    rw [take_set_self xs i a]

/-- Counterexample to claim C8 as stated: on the consistent plan
`[segStart, segLegA]` (leg from 07:00 to 08:00), editing the leg's end time to
its own start time `"07:00"` stores the clamped duration 1 — which is
`max 1 (endMinutes - startMinutes)` — but the recalculation that follows
produces end time `"07:01"`, not the requested `"07:00"`: the exact end time
is not reproduced when it coincides with the start time. -/
theorem endTimeEdit_counterexample :
    ((handleEndTimeChange [segStart, segLegA] "07:00" 1 "07:00").1).get? 1 =
      some segEndEditOut ∧
    segEndEditOut.customDurationMins = some 1 ∧
    segEndEditOut.endTime = "07:01" ∧ segEndEditOut.endTime ≠ "07:00" := by
  refine ⟨by decide, by decide, by decide, by decide⟩

/-- Claim C8 (amended): on a recalculation-consistent sequence, editing the
end time of a segment at index `i > 0` to a well-formed time stores
`customDurationMins = max 1 (endMinutes - startMinutes, +1440 when the
difference is negative)`, placing the segment in Fixed-Duration mode, and —
whenever the new end time is not equal to the segment's start time — the
recalculation that follows reproduces that exact end time (when they are
equal the duration clamps to 1 and the end lands one minute later, as the
counterexample shows); editing the end time of index 0 instead sets the
global start time. -/
theorem endTimeEdit_recalculate (segs : List Segment) (g t : String) (i : ℕ)
    (s : Segment)
    (hfix : recalculateSegments segs g = segs)
    (hi : 0 < i)
    (hs : segs.get? i = some s)
    (hct : formatTime (parseTime t) = t)
    (hSb : parseTime s.startTime < 1440)
    (hne : parseTime t ≠ parseTime s.startTime) :
    (handleEndTimeChange segs g 0 t).2 = t ∧
    ∃ out, ((handleEndTimeChange segs g i t).1).get? i = some out ∧
      out.customDurationMins =
        some (max 1 ((if parseTime t < parseTime s.startTime
            then parseTime t + 1440 else parseTime t) - parseTime s.startTime)) ∧
      out.endTime = t := by
  have hne0 : i ≠ 0 := by omega
  obtain ⟨nS, hnS⟩ := parseTime_nat s.startTime
  obtain ⟨nE, hnE⟩ := parseTime_nat t
  have hSb'' : nS < 1440 := by
    have : (nS : ℚ) < 1440 := by rw [← hnS]; exact hSb
    exact_mod_cast this
  set D : ℚ := (if parseTime t < parseTime s.startTime
    then parseTime t + 1440 else parseTime t) - parseTime s.startTime with hD
  have hd1 : 1 ≤ D := by
    rw [hD]
    by_cases hlt : parseTime t < parseTime s.startTime
    · rw [if_pos hlt]
      rw [hnS, hnE] at hlt ⊢
      have h3 : nS ≤ 1439 := by omega
      have h3' : (nS : ℚ) ≤ 1439 := by exact_mod_cast h3
      have h0 : (0 : ℚ) ≤ (nE : ℚ) := by positivity
      linarith
    · rw [if_neg hlt]
      rw [hnS, hnE] at hlt hne ⊢
      have hg : (nS : ℚ) < (nE : ℚ) := lt_of_le_of_ne (not_lt.mp hlt) fun h => hne h.symm
      have h2 : nS < nE := by exact_mod_cast hg
      have h3 : (nS : ℚ) + 1 ≤ (nE : ℚ) := by exact_mod_cast Nat.succ_le_of_lt h2
      linarith
  have hdpos : (0 : ℚ) < D := lt_of_lt_of_le zero_lt_one hd1
  have hdm : (if D ≤ 0 then (1 : ℚ) else D) = D := if_neg (not_le.mpr hdpos)
  have hmax : max 1 D = D := max_eq_right hd1
  have hlen : i < segs.length := by
    by_contra hge
    rw [List.get?_eq_none.mpr (not_lt.mp hge)] at hs
    exact Option.noConfusion hs
  have hfi : (recalculateSegments segs g).get? i = some s := by rw [hfix]; exact hs
  have hstep := recalc_get_eq segs g i s s hs hfi
  have hclock : (recalcState g (initRecState g) 0 (segs.take i)).currentClockTime =
      s.startTime := by
    conv_rhs => rw [hstep]
    rw [recalcStep_startTime, if_neg hne0]
  refine ⟨rfl, ?_⟩
  simp only [handleEndTimeChange, hs, if_neg hne0]
  rw [← hD, hdm, recalculateSegments_get?, take_set_self,
    List.get?_set_eq_of_lt _ hlen, Option.map_some']
  refine ⟨_, rfl, ?_, ?_⟩
  · rw [recalcStep_custom, hmax]
  · rw [recalcStep_endTime, if_neg hne0, hclock]
    have hseg : segTimes i { s with customDurationMins := some D } = (D / 60, D) := by
      simp [segTimes, hne0, hdpos]
    rw [hseg]
    show addMinutes s.startTime D = t
    rw [addMinutes, hD]
    by_cases hlt : parseTime t < parseTime s.startTime
    · rw [if_pos hlt]
      have harr : parseTime s.startTime +
          (parseTime t + 1440 - parseTime s.startTime) = (nE : ℚ) + 1440 := by
        rw [hnE]; ring
      rw [harr, formatTime_add_1440, ← hnE, hct]
    · rw [if_neg hlt]
      have harr : parseTime s.startTime + (parseTime t - parseTime s.startTime) =
          parseTime t := by ring
      rw [harr, hct]

/-- Witness for the amended C8: editing the concrete leg's end time from
08:00 to 09:30 stores a 150-minute fixed duration and reproduces 09:30; the
same edit on index 0 sets the global start time. -/
theorem endTimeEdit_recalculate_witness :
    (handleEndTimeChange [segStart, segLegA] "07:00" 0 "09:30").2 = "09:30" ∧
    ∃ out, ((handleEndTimeChange [segStart, segLegA] "07:00" 1 "09:30").1).get? 1 =
        some out ∧
      out.customDurationMins =
        some (max 1 ((if parseTime "09:30" < parseTime segLegA.startTime
            then parseTime "09:30" + 1440 else parseTime "09:30") -
          parseTime segLegA.startTime)) ∧
      out.endTime = "09:30" :=
  endTimeEdit_recalculate [segStart, segLegA] "07:00" "09:30" 1 segLegA
    (by decide) (by decide) (by decide) (by decide) (by decide) (by decide)

end RunnerCalc
